import Mathlib

/-!
Verification of the cfnts NTP/NTS core: a shallow embedding of
`src/ntp/protocol.rs`, `src/ntp/server.rs` and `src/nts_ke/client.rs`.

Bytes are modelled as `Nat` (real wire bytes are < 256; readers reduce
modulo 256 exactly where the Rust code interprets bytes as integers, and
writers only produce values < 256).  Machine-integer casts (`as u16`,
two's-complement `i8`) are modelled with explicit `% 2^w` arithmetic.
Rust code that can abort (`panic!`, arithmetic underflow followed by an
out-of-bounds slice, `Vec` indexing, `unwrap`) is modelled with the
`PResult` wrapper whose `panic` constructor marks an abort.  Wrapping
(release-mode) semantics is used for the `u16` subtraction in
`parse_nts_packet`; the places where the two Rust overflow semantics
differ are noted inline.
-/

namespace Cfnts

/-! ### Byte-level readers and writers (byteorder::BigEndian) -/

/-- Big-endian `read_u16`: interpret two bytes. -/
def ru16 (a b : Nat) : Nat := a % 256 * 256 + b % 256

/-- Big-endian `write_u16` of a value already reduced below 2^16. -/
def wu16 (n : Nat) : List Nat := [n / 256 % 256, n % 256]

/-- Big-endian `read_u32` from four bytes. -/
def ru32 (a b c d : Nat) : Nat :=
  a % 256 * 16777216 + b % 256 * 65536 + c % 256 * 256 + d % 256

/-- Big-endian `write_u32`. -/
def wu32 (n : Nat) : List Nat :=
  [n / 16777216 % 256, n / 65536 % 256, n / 256 % 256, n % 256]

/-- Big-endian `read_u64` from eight bytes. -/
def ru64 (a b c d e f g h : Nat) : Nat :=
  a % 256 * 72057594037927936 + b % 256 * 281474976710656 +
  c % 256 * 1099511627776 + d % 256 * 4294967296 +
  e % 256 * 16777216 + f % 256 * 65536 + g % 256 * 256 + h % 256

/-- Big-endian `write_u64`. -/
def wu64 (n : Nat) : List Nat :=
  [n / 72057594037927936 % 256, n / 281474976710656 % 256,
   n / 1099511627776 % 256, n / 4294967296 % 256,
   n / 16777216 % 256, n / 65536 % 256, n / 256 % 256, n % 256]

/-- `read_i8`: a byte as a signed two's-complement value. -/
def rdI8 (b : Nat) : Int :=
  if 128 ≤ b % 256 then (b % 256 : Int) - 256 else (b % 256 : Int)

/-- `write_i8`: the two's-complement byte of a signed value. -/
def wrI8 (x : Int) : Nat := (x % 256).toNat

/-! ### Rust abort modelling -/

/-- Outcome of a Rust computation that may abort the process
(`panic!`, out-of-bounds indexing, arithmetic overflow checks). -/
inductive PResult (α : Type) where
  | panic : PResult α
  | value : α → PResult α
deriving DecidableEq, Repr

/-! ### Data model of `src/ntp/protocol.rs` -/

inductive LeapState where
  | NoLeap | Positive | Negative | Unknown
deriving DecidableEq, Repr

inductive PacketMode where
  | SymmetricActive | SymmetricPassive | Client | Server | Broadcast | Invalid
deriving DecidableEq, Repr

inductive NtpExtensionType where
  | UniqueIdentifier | NTSCookie | NTSCookiePlaceholder | NTSAuthenticator
  | Unknown (y : Nat)
deriving DecidableEq, Repr

/-- `LeapState as u8` (Rust discriminants 0..3). -/
def leapVal : LeapState → Nat
  | .NoLeap => 0 | .Positive => 1 | .Negative => 2 | .Unknown => 3

/-- `PacketMode as u8` (Rust discriminants 1..5, `Invalid` gets 6). -/
def modeVal : PacketMode → Nat
  | .SymmetricActive => 1 | .SymmetricPassive => 2 | .Client => 3
  | .Server => 4 | .Broadcast => 5 | .Invalid => 6

/-- `wire_type` from protocol.rs. -/
def wireType : NtpExtensionType → Nat
  | .UniqueIdentifier => 0x0104
  | .NTSCookie => 0x0204
  | .NTSCookiePlaceholder => 0x0304
  | .NTSAuthenticator => 0x0404
  | .Unknown y => y

/-- `type_from_wire` from protocol.rs. -/
def typeFromWire (x : Nat) : NtpExtensionType :=
  if x = 0x0104 then .UniqueIdentifier
  else if x = 0x0204 then .NTSCookie
  else if x = 0x0304 then .NTSCookiePlaceholder
  else if x = 0x0404 then .NTSAuthenticator
  else .Unknown x

structure NtpPacketHeader where
  leap_indicator : LeapState
  version : Nat
  mode : PacketMode
  stratum : Nat
  poll : Int
  precision : Int
  root_delay : Nat
  root_dispersion : Nat
  reference_id : Nat
  reference_timestamp : Nat
  origin_timestamp : Nat
  receive_timestamp : Nat
  transmit_timestamp : Nat
deriving DecidableEq, Repr

structure NtpExtension where
  ext_type : NtpExtensionType
  contents : List Nat
deriving DecidableEq, Repr

structure NtsPacket where
  header : NtpPacketHeader
  auth_exts : List NtpExtension
  auth_enc_exts : List NtpExtension
deriving DecidableEq, Repr

structure NtpPacket where
  header : NtpPacketHeader
  exts : List NtpExtension
deriving DecidableEq, Repr

/-! ### First-byte bit packing (protocol.rs lines 125-153) -/

def parse_leap_indicator (first : Nat) : LeapState :=
  match first >>> 6 with
  | 0 => .NoLeap
  | 1 => .Positive
  | 2 => .Negative
  | _ => .Unknown

def parse_version (first : Nat) : Nat := (first &&& 0x38) >>> 3

def parse_mode (first : Nat) : PacketMode :=
  match first &&& 0x07 with
  | 1 => .SymmetricActive
  | 2 => .SymmetricPassive
  | 3 => .Client
  | 4 => .Server
  | 5 => .Broadcast
  | _ => .Invalid

/-- `create_first`: pack leap, version, mode into one byte.  The Rust
computation is on `u8`; the `u8` wrap of `version << 3` cannot change the
bits kept by `& 0x38`, so plain `Nat` operations are exact. -/
def create_first (leap : LeapState) (version : Nat) (mode : PacketMode) : Nat :=
  (leapVal leap <<< 6) ||| ((version <<< 3) &&& 0x38) ||| (modeVal mode &&& 0x07)

/-! ### Header codec (protocol.rs lines 156-207) -/

/-- Field extraction once 48 bytes are known to be available.  The
catch-all branch is unreachable: `parse_packet_header` only calls this
after its explicit `packet.len() < 48` check. -/
def parseHeaderBytes : List Nat → NtpPacketHeader
  | b0 :: b1 :: b2 :: b3 :: b4 :: b5 :: b6 :: b7 ::
    b8 :: b9 :: b10 :: b11 :: b12 :: b13 :: b14 :: b15 ::
    b16 :: b17 :: b18 :: b19 :: b20 :: b21 :: b22 :: b23 ::
    b24 :: b25 :: b26 :: b27 :: b28 :: b29 :: b30 :: b31 ::
    b32 :: b33 :: b34 :: b35 :: b36 :: b37 :: b38 :: b39 ::
    b40 :: b41 :: b42 :: b43 :: b44 :: b45 :: b46 :: b47 :: _ =>
    { leap_indicator := parse_leap_indicator (b0 % 256)
      version := parse_version (b0 % 256)
      mode := parse_mode (b0 % 256)
      stratum := b1 % 256
      poll := rdI8 b2
      precision := rdI8 b3
      root_delay := ru32 b4 b5 b6 b7
      root_dispersion := ru32 b8 b9 b10 b11
      reference_id := ru32 b12 b13 b14 b15
      reference_timestamp := ru64 b16 b17 b18 b19 b20 b21 b22 b23
      origin_timestamp := ru64 b24 b25 b26 b27 b28 b29 b30 b31
      receive_timestamp := ru64 b32 b33 b34 b35 b36 b37 b38 b39
      transmit_timestamp := ru64 b40 b41 b42 b43 b44 b45 b46 b47 }
  | _ =>
    { leap_indicator := .NoLeap, version := 0, mode := .Invalid, stratum := 0,
      poll := 0, precision := 0, root_delay := 0, root_dispersion := 0,
      reference_id := 0, reference_timestamp := 0, origin_timestamp := 0,
      receive_timestamp := 0, transmit_timestamp := 0 }

/-- `parse_packet_header` from protocol.rs. -/
def parse_packet_header (packet : List Nat) : Except String NtpPacketHeader :=
  if packet.length < 48 then .error "Too short"
  else .ok (parseHeaderBytes packet)

/-- `serialize_header` from protocol.rs. -/
def serialize_header (head : NtpPacketHeader) : List Nat :=
  [create_first head.leap_indicator head.version head.mode] ++
  [head.stratum % 256] ++ [wrI8 head.poll] ++ [wrI8 head.precision] ++
  wu32 head.root_delay ++ wu32 head.root_dispersion ++ wu32 head.reference_id ++
  wu64 head.reference_timestamp ++ wu64 head.origin_timestamp ++
  wu64 head.receive_timestamp ++ wu64 head.transmit_timestamp

/-! ### Extension list codec (protocol.rs lines 221-265)

The loop `while buff.len() - reader.position() >= 4` is rendered as a
match on four available bytes.  `reader.read(&mut contents)` fills a
zero-initialised vector of `ext_len - 4` bytes with however many bytes
remain, so a truncated read keeps the declared length and zero-fills. -/

/-- `parse_extensions` from protocol.rs. -/
def parse_extensions : List Nat → Except String (List NtpExtension)
  | b0 :: b1 :: b2 :: b3 :: rest =>
    let t := ru16 b0 b1
    let l := ru16 b2 b3
    if l % 4 ≠ 0 then .error "extension not on word boundary"
    else if l < 4 then .error "extension too short"
    else
      match parse_extensions (rest.drop (l - 4)) with
      | .error e => .error e
      | .ok exts =>
        .ok (⟨typeFromWire t, rest.take (l - 4) ++ List.replicate (l - 4 - rest.length) 0⟩ :: exts)
  | _ => .ok []
termination_by b => b.length
decreasing_by simp [List.length_drop]; omega

/-- `serialize_extensions` from protocol.rs; `panic` models the
`panic!("extension is the wrong length")` abort, and the two `% 65536`
are the `as u16` casts on the written type and length fields. -/
def serialize_extensions : List NtpExtension → PResult (List Nat)
  | [] => .value []
  | e :: rest =>
    if e.contents.length % 4 ≠ 0 then .panic
    else
      match serialize_extensions rest with
      | .panic => .panic
      | .value bs =>
        .value (wu16 (wireType e.ext_type % 65536) ++
                wu16 ((e.contents.length + 4) % 65536) ++ e.contents ++ bs)

/-- `parse_ntp_packet` from protocol.rs. -/
def parse_ntp_packet (buff : List Nat) : Except String NtpPacket :=
  match parse_packet_header buff with
  | .error e => .error e
  | .ok header =>
    match parse_extensions (buff.drop 48) with
    | .error e => .error e
    | .ok exts => .ok ⟨header, exts⟩

/-- `serialize_ntp_packet` from protocol.rs. -/
def serialize_ntp_packet (pack : NtpPacket) : PResult (List Nat) :=
  match serialize_extensions pack.exts with
  | .panic => .panic
  | .value eb => .value (serialize_header pack.header ++ eb)

/-- `has_extension` from protocol.rs (first-match loop). -/
def has_extension (pack : NtpPacket) (kind : NtpExtensionType) : Bool :=
  pack.exts.any fun e => decide (e.ext_type = kind)

/-- `is_nts_packet` from protocol.rs. -/
def is_nts_packet (pack : NtpPacket) : Bool :=
  has_extension pack .NTSCookie && has_extension pack .NTSAuthenticator &&
  has_extension pack .UniqueIdentifier

/-- `extract_extension` from protocol.rs (first match). -/
def extract_extension (pack : NtpPacket) (kind : NtpExtensionType) : Option NtpExtension :=
  pack.exts.find? fun e => decide (e.ext_type = kind)

/-! ### NTS packet codec (protocol.rs lines 296-391)

The `miscreant::aead::Aead` trait object is abstracted into a pair of
pure functions; an `AeadAlg` value stands for an AEAD instance already
keyed (`Aes128SivAead::new(&key)`). -/

structure AeadAlg where
  sealF : List Nat → List Nat → List Nat → List Nat
  opn : List Nat → List Nat → List Nat → Except String (List Nat)

def NONCE_LEN : Nat := 32

/-- `parse_decrypt_auth_ext` from protocol.rs.  The slice bounds are
guarded by the explicit length check, so no abort is possible here. -/
def parse_decrypt_auth_ext (aead : AeadAlg) (auth_dat : List Nat) :
    List Nat → Except String (List Nat)
  | c0 :: c1 :: c2 :: c3 :: crest =>
    let nonce_len := ru16 c0 c1
    let cipher_len := ru16 c2 c3
    let nonce_pad_len := nonce_len + (4 - nonce_len % 4) % 4
    let cipher_pad_len := cipher_len + (4 - cipher_len % 4) % 4
    if crest.length + 4 < nonce_pad_len + cipher_pad_len + 4 then
      .error "length of data exceeds wrapper"
    else
      let nonce := crest.take nonce_len
      let ciphertext := (crest.drop nonce_pad_len).take cipher_len
      match aead.opn nonce auth_dat ciphertext with
      | .error _ => .error "authentication failed"
      | .ok pt => .ok pt
  | _ => .error "insufficient length"

/-- The extension-scanning loop of `parse_nts_packet`.  `processed` holds
the bytes before the current position (the loop keeps the invariant
`buff = processed ++ remaining`), `acc` the extensions gathered so far.

`extLen` is the release-mode wrapping `u16` evaluation of
`reader.read_u16()? - 4`.  In the `NTSAuthenticator` arm the code
computes `reader.position() - 4 - ext_len` in `u64`; when the declared
length overruns the buffer this either underflows (debug abort) or wraps
into an out-of-bounds slice index for `&buff[0..oldpos]` (release
abort), so both Rust semantics give the `.panic` outcome modelled by the
guard below. -/
def ntsScan (aead : AeadAlg) (header : NtpPacketHeader) (processed : List Nat)
    (remaining : List Nat) (acc : List NtpExtension) :
    PResult (Except String NtsPacket) :=
  match remaining with
  | t0 :: t1 :: l0 :: l1 :: rest =>
    match typeFromWire (ru16 t0 t1) with
    | .NTSAuthenticator =>
      if processed.length + min ((ru16 l0 l1 + 65532) % 65536) rest.length <
          (ru16 l0 l1 + 65532) % 65536 then .panic
      else
        match parse_decrypt_auth_ext aead
            (processed.take (processed.length +
              min ((ru16 l0 l1 + 65532) % 65536) rest.length -
              (ru16 l0 l1 + 65532) % 65536))
            (rest.take ((ru16 l0 l1 + 65532) % 65536) ++
              List.replicate ((ru16 l0 l1 + 65532) % 65536 - rest.length) 0) with
        | .error e => .value (.error e)
        | .ok pt =>
          match parse_extensions pt with
          | .error e => .value (.error e)
          | .ok encs => .value (.ok ⟨header, acc, encs⟩)
    | _ =>
      ntsScan aead header
        (processed ++ [t0, t1, l0, l1] ++ rest.take ((ru16 l0 l1 + 65532) % 65536))
        (rest.drop ((ru16 l0 l1 + 65532) % 65536))
        (acc ++ [⟨typeFromWire (ru16 t0 t1),
          rest.take ((ru16 l0 l1 + 65532) % 65536) ++
          List.replicate ((ru16 l0 l1 + 65532) % 65536 - rest.length) 0⟩])
  | _ => .value (.error "never saw the authenticator")
termination_by remaining.length
decreasing_by simp [List.length_drop]; omega

/-- `parse_nts_packet` from protocol.rs. -/
def parse_nts_packet (aead : AeadAlg) (buff : List Nat) :
    PResult (Except String NtsPacket) :=
  match parse_packet_header buff with
  | .error e => .value (.error e)
  | .ok header => ntsScan aead header (buff.take 48) (buff.drop 48) []

/-- `serialize_nts_packet` from protocol.rs with the random 32-byte
nonce lifted to a parameter.  `% 65536` is the `as u16` cast on the
ciphertext length. -/
def serialize_nts_packet (aead : AeadAlg) (nonce : List Nat) (packet : NtsPacket) :
    PResult (List Nat) :=
  match serialize_extensions packet.auth_exts with
  | .panic => .panic
  | .value authBytes =>
    match serialize_extensions packet.auth_enc_exts with
    | .panic => .panic
    | .value plaintext =>
      let buff := serialize_header packet.header ++ authBytes
      let ciphertext := aead.sealF nonce buff plaintext
      let padlen := (4 - ciphertext.length % 4) % 4
      let contents := wu16 NONCE_LEN ++ wu16 (ciphertext.length % 65536) ++
                      nonce ++ ciphertext ++ List.replicate padlen 0
      match serialize_extensions [⟨.NTSAuthenticator, contents⟩] with
      | .panic => .panic
      | .value res => .value (buff ++ res)

/-! ### Scan traces

Total recursions mirroring the two parsing loops, recording the
extension headers each loop visits.  They are used to state when
`parse_extensions` errors (C4) and when `parse_nts_packet` aborts (C9). -/

/-- The `(type, length)` headers visited by `parse_extensions`, up to and
including the first header with an invalid length. -/
def extHeadersScan : List Nat → List (Nat × Nat)
  | b0 :: b1 :: b2 :: b3 :: rest =>
    let t := ru16 b0 b1
    let l := ru16 b2 b3
    if l % 4 ≠ 0 ∨ l < 4 then [(t, l)]
    else (t, l) :: extHeadersScan (rest.drop (l - 4))
  | _ => []
termination_by b => b.length
decreasing_by simp [List.length_drop]; omega

/-- The `(type, wrapped content length)` headers visited by the
`parse_nts_packet` loop; the scan stops at the first
`NTSAuthenticator`-typed header. -/
def ntsHeadersScan : List Nat → List (Nat × Nat)
  | t0 :: t1 :: l0 :: l1 :: rest =>
    match typeFromWire (ru16 t0 t1) with
    | .NTSAuthenticator => [(ru16 t0 t1, (ru16 l0 l1 + 65532) % 65536)]
    | _ => (ru16 t0 t1, (ru16 l0 l1 + 65532) % 65536) ::
        ntsHeadersScan (rest.drop ((ru16 l0 l1 + 65532) % 65536))
  | _ => []
termination_by b => b.length
decreasing_by simp [List.length_drop]; omega

/-! ### Data model of `src/ntp/server.rs` -/

/-- `NTSKeys` from the cookie module (a pair of 32-byte keys); only its
shape is needed by the server code under verification. -/
structure NTSKeys where
  c2s : List Nat
  s2c : List Nat
deriving DecidableEq, Repr

structure ServerState where
  leap : LeapState
  stratum : Nat
  version : Nat
  poll : Int
  precision : Int
  root_delay : Nat
  root_dispersion : Nat
  refid : Nat
  refstamp : Nat
deriving DecidableEq, Repr

/-- The externals consumed by the server's packet handlers: the cookie
codec (`get_keyid`, `eat_cookie`, `make_cookie`, `COOKIE_SIZE` live in
the cookie module, outside these sources), the rotating-key state
(`keys.get`, `latest()`), the AEAD constructor `Aes128SivAead::new`, and
the RNG output used for the response nonce. -/
structure ServerEnv where
  get_keyid : List Nat → Option (List Nat)
  keyLookup : List Nat → Option (List Nat)
  eat_cookie : List Nat → List Nat → Option NTSKeys
  mkAead : List Nat → AeadAlg
  cookieSize : Nat
  make_cookie : NTSKeys → List Nat → List Nat → List Nat
  latest : List Nat × List Nat
  nonce : List Nat

/-- `kiss_of_death` from server.rs.  The `unwrap` on
`extract_extension` is guarded by `has_extension`, so the `none` branch
is unreachable. -/
def kiss_of_death (query_packet : NtpPacket) : NtpPacket :=
  let kod_header : NtpPacketHeader :=
    { leap_indicator := .Unknown, version := 4, mode := .Server,
      poll := 0, precision := 0, stratum := 0, root_delay := 0,
      root_dispersion := 0, reference_id := 0x4e54534e,
      reference_timestamp := 0,
      origin_timestamp := query_packet.header.transmit_timestamp,
      receive_timestamp := 0, transmit_timestamp := 0 }
  { header := kod_header,
    exts :=
      if has_extension query_packet .UniqueIdentifier then
        match extract_extension query_packet .UniqueIdentifier with
        | some e => [e]
        | none => []
      else [] }

/-- `send_kiss_of_death` from server.rs. -/
def send_kiss_of_death (query_packet : NtpPacket) : PResult (Except String (List Nat)) :=
  match serialize_ntp_packet (kiss_of_death query_packet) with
  | .panic => .panic
  | .value bs => .value (.ok bs)

/-- One iteration of the `for ext in query.auth_exts` loop of
`nts_response` in server.rs. -/
def ntsResponseStep (env : ServerEnv) (keys : NTSKeys) (acc : NtsPacket)
    (ext : NtpExtension) : NtsPacket :=
  match ext.ext_type with
  | .UniqueIdentifier => { acc with auth_exts := acc.auth_exts ++ [ext] }
  | .NTSCookiePlaceholder =>
    if env.cookieSize ≤ ext.contents.length then
      { acc with auth_enc_exts := acc.auth_enc_exts ++
          [⟨.NTSCookie, env.make_cookie keys env.latest.2 env.latest.1⟩] }
    else acc
  | _ => acc

/-- `nts_response` from server.rs.  `env.latest` stands for the value
`cookie_keys.read().unwrap().latest()` returns (the rotating state is
not mutated during one request). -/
def nts_response (env : ServerEnv) (query : NtsPacket) (header : NtpPacketHeader)
    (keys : NTSKeys) : NtsPacket :=
  let base := query.auth_exts.foldl (ntsResponseStep env keys) ⟨header, [], []⟩
  { base with auth_enc_exts := base.auth_enc_exts ++
      [⟨.NTSCookie, env.make_cookie keys env.latest.2 env.latest.1⟩] }

/-- `process_nts` from server.rs.  The `unwrap` on the re-parse of
`query_raw` in the error arm is modelled by the `.panic` fallback; it is
unreachable because `response` only calls this after a successful
`parse_ntp_packet`. -/
def process_nts (env : ServerEnv) (resp_header : NtpPacketHeader) (keys : NTSKeys)
    (query_raw : List Nat) : PResult (List Nat) :=
  let recv_aead := env.mkAead keys.c2s
  let send_aead := env.mkAead keys.s2c
  match parse_nts_packet recv_aead query_raw with
  | .panic => .panic
  | .value (.ok packet) =>
    serialize_nts_packet send_aead env.nonce (nts_response env packet resp_header keys)
  | .value (.error _) =>
    match parse_ntp_packet query_raw with
    | .ok p => serialize_ntp_packet (kiss_of_death p)
    | .error _ => .panic

/-- `response` from server.rs, with the wall-clock derived
`response_timestamp` lifted to the parameter `rt`. -/
def response (env : ServerEnv) (rt : Nat) (servstate : ServerState)
    (query : List Nat) : PResult (Except String (List Nat)) :=
  match parse_ntp_packet query with
  | .error e => .value (.error e)
  | .ok query_packet =>
    let resp_header : NtpPacketHeader :=
      { leap_indicator := servstate.leap, version := servstate.version,
        mode := .Server, poll := servstate.poll,
        precision := servstate.precision, stratum := servstate.stratum,
        root_delay := servstate.root_delay,
        root_dispersion := servstate.root_dispersion,
        reference_id := servstate.refid,
        reference_timestamp := servstate.refstamp,
        origin_timestamp := query_packet.header.transmit_timestamp,
        receive_timestamp := rt, transmit_timestamp := rt }
    if query_packet.header.mode ≠ .Client then send_kiss_of_death query_packet
    else if is_nts_packet query_packet then
      match extract_extension query_packet .NTSCookie with
      | none => .panic
      | some cookie =>
        match env.get_keyid cookie.contents with
        | some keyid =>
          match env.keyLookup keyid with
          | some key =>
            match env.eat_cookie cookie.contents key with
            | some nts_dir_keys =>
              match process_nts env resp_header nts_dir_keys query with
              | .panic => .panic
              | .value bs => .value (.ok bs)
            | none => send_kiss_of_death query_packet
          | none => send_kiss_of_death query_packet
        | none => send_kiss_of_death query_packet
    else .value (.ok (serialize_header resp_header))

/-! ### Data model of `src/nts_ke/client.rs`

The record codec (`nts_ke/protocol.rs`) is not among the sources; the
three `extract_*` helpers are modelled from the spec. -/

inductive NtsKeType where
  | EndOfMessage | NextProtocolNegotiation | Error | Warning
  | AEADAlgorithmNegotiation | NewCookie | ServerNegotiation | PortNegotiation
deriving DecidableEq, Repr

structure NtsKeRecord where
  critical : Bool
  record_type : NtsKeType
  contents : List Nat
deriving DecidableEq, Repr

structure ClientState where
  finished : Bool
  cookies : List (List Nat)
  next_protocols : List Nat
  aead_scheme : Nat
  next_port : Nat
  next_server : String
  keys : NTSKeys
deriving DecidableEq, Repr

inductive KeClientError where
  | RecordAfterEnd | ErrorRecord | InvalidRecord | NoIpv4AddrFound
  | NoIpv6AddrFound
  | Other (s : String)
deriving DecidableEq, Repr

/-- Big-endian `u16` sequence of a byte list (pairs; a dangling odd byte
carries no complete id). -/
def u16Seq : List Nat → List Nat
  | a :: b :: rest => ru16 a b :: u16Seq rest
  | _ => []

/-- Modelled from the spec: `extract_protos` (in the absent
`nts_ke/protocol.rs`) reads a `NextProtocolNegotiation` record's
contents as a sequence of `u16` protocol ids (§4.4). -/
def extract_protos (rec : NtsKeRecord) : Except String (List Nat) :=
  .ok (u16Seq rec.contents)

/-- Modelled from the spec: `extract_aead` (in the absent
`nts_ke/protocol.rs`) reads an `AEADAlgorithmNegotiation` record's
contents as a sequence of `u16` AEAD ids (§4.4). -/
def extract_aead (rec : NtsKeRecord) : Except String (List Nat) :=
  .ok (u16Seq rec.contents)

/-- Modelled from the spec: `extract_port` (in the absent
`nts_ke/protocol.rs`) reads a `PortNegotiation` record's contents as a
single `u16` (§4.4). -/
def extract_port (rec : NtsKeRecord) : Except String Nat :=
  match rec.contents with
  | a :: b :: _ => .ok (ru16 a b)
  | _ => .error "PortNegotiation record too short"

/-- `process_record` from client.rs.  State mutation and the
`Result` return are combined into `Except`; the caller abandons the
state whenever an error is returned, so the mutation performed before
the `schemes.len() != 1` check is not observable.  `schemes[0]` is a
`Vec` index: on an empty vector it aborts, which the `.panic` value
records. -/
def process_record (rec : NtsKeRecord) (state : ClientState) :
    PResult (Except KeClientError ClientState) :=
  if state.finished then .value (.error .RecordAfterEnd)
  else
    match rec.record_type with
    | .EndOfMessage => .value (.ok { state with finished := true })
    | .NextProtocolNegotiation =>
      match extract_protos rec with
      | .error e => .value (.error (.Other e))
      | .ok ps => .value (.ok { state with next_protocols := ps })
    | .Error => .value (.error .ErrorRecord)
    | .Warning => .value (.ok state)
    | .AEADAlgorithmNegotiation =>
      match extract_aead rec with
      | .error e => .value (.error (.Other e))
      | .ok schemes =>
        match schemes with
        | [] => .panic
        | s0 :: _ =>
          if schemes.length ≠ 1 then .value (.error .InvalidRecord)
          else .value (.ok { state with aead_scheme := s0 })
    | .NewCookie => .value (.ok { state with cookies := state.cookies ++ [rec.contents] })
    | .ServerNegotiation => .value (.ok state)
    | .PortNegotiation =>
      match extract_port rec with
      | .error e => .value (.error (.Other e))
      | .ok p => .value (.ok { state with next_port := p })

/-! ### Concrete sample values (used by the witness theorems) -/

/-- A trivial AEAD instance: the ciphertext is the plaintext.  It
satisfies the seal/open correctness assumption and is used to evaluate
the codec on concrete inputs. -/
def idAead : AeadAlg :=
  { sealF := fun _ _ pt => pt
    opn := fun _ _ ct => .ok ct }

/-- A sample bounded header (mode `Client`, version 4). -/
def hdr0 : NtpPacketHeader :=
  { leap_indicator := .NoLeap, version := 4, mode := .Client, stratum := 1,
    poll := 0, precision := -18, root_delay := 10, root_dispersion := 10,
    reference_id := 0, reference_timestamp := 0, origin_timestamp := 0,
    receive_timestamp := 0, transmit_timestamp := 81985529216486895 }

/-- A sample valid NTS packet. -/
def pkt0 : NtsPacket :=
  { header := hdr0
    auth_exts := [⟨.UniqueIdentifier, [17, 17, 17, 17]⟩]
    auth_enc_exts := [⟨.NTSCookiePlaceholder, [254, 254, 254, 254]⟩] }

/-- A trivial server environment in which every cookie lookup fails. -/
def env0 : ServerEnv :=
  { get_keyid := fun _ => none
    keyLookup := fun _ => none
    eat_cookie := fun _ _ => none
    mkAead := fun _ => idAead
    cookieSize := 104
    make_cookie := fun _ _ _ => []
    latest := ([], [])
    nonce := List.replicate 32 0 }

/-- A sample server state. -/
def ss0 : ServerState :=
  { leap := .NoLeap, stratum := 1, version := 4, poll := 7, precision := -18,
    root_delay := 10, root_dispersion := 10, refid := 0, refstamp := 0 }

/-- A sample initial NTS-KE client state. -/
def cstate0 : ClientState :=
  { finished := false, cookies := [], next_protocols := [], aead_scheme := 0,
    next_port := 123, next_server := "example.org", keys := ⟨[], []⟩ }

/-! ### Validity predicates

The bounds a Rust value of the corresponding type satisfies by
construction (`u8`/`i8`/`u32`/`u64` fields, 3-bit version), plus
wire-canonical extension types: an `Unknown` constructor may not shadow
one of the four named wire codes, since `type_from_wire` never produces
such a value. -/

/-- Field ranges of a well-formed header (`version` is a 3-bit field). -/
def headerBounds (h : NtpPacketHeader) : Prop :=
  h.version ≤ 7 ∧ h.stratum < 256 ∧
  (-128 ≤ h.poll ∧ h.poll < 128) ∧ (-128 ≤ h.precision ∧ h.precision < 128) ∧
  h.root_delay < 4294967296 ∧ h.root_dispersion < 4294967296 ∧
  h.reference_id < 4294967296 ∧
  h.reference_timestamp < 18446744073709551616 ∧
  h.origin_timestamp < 18446744073709551616 ∧
  h.receive_timestamp < 18446744073709551616 ∧
  h.transmit_timestamp < 18446744073709551616

instance (h : NtpPacketHeader) : Decidable (headerBounds h) := by
  unfold headerBounds; infer_instance

/-- A well-formed extension: 4-byte aligned contents that fit a `u16`
length field, and a wire-canonical type. -/
def ExtWF (e : NtpExtension) : Prop :=
  e.contents.length % 4 = 0 ∧ e.contents.length + 4 < 65536 ∧
  wireType e.ext_type < 65536 ∧ typeFromWire (wireType e.ext_type) = e.ext_type

instance (e : NtpExtension) : Decidable (ExtWF e) := by
  unfold ExtWF; infer_instance

/-- A valid NTS packet in the sense of the round-trip claim: in-range
header fields, and extensions that are well formed and not
`NTSAuthenticator`-typed. -/
def validNtsPacket (p : NtsPacket) : Prop :=
  headerBounds p.header ∧
  (∀ e ∈ p.auth_exts ++ p.auth_enc_exts, ExtWF e ∧ e.ext_type ≠ .NTSAuthenticator)

instance (p : NtsPacket) : Decidable (validNtsPacket p) := by
  unfold validNtsPacket; infer_instance

/-! ### Header codec lemmas -/

lemma first_byte_roundtrip (l : LeapState) (v : Nat) (m : PacketMode) (hv : v ≤ 7) :
    parse_leap_indicator (create_first l v m % 256) = l ∧
    parse_version (create_first l v m % 256) = v ∧
    parse_mode (create_first l v m % 256) = m := by
  cases l <;> cases m <;> interval_cases v <;> decide

lemma ru32_wu32 (x : Nat) (hx : x < 4294967296) :
    ru32 (x / 16777216 % 256) (x / 65536 % 256) (x / 256 % 256) (x % 256) = x := by
  unfold ru32
  omega

lemma ru64_wu64 (x : Nat) (hx : x < 18446744073709551616) :
    ru64 (x / 72057594037927936 % 256) (x / 281474976710656 % 256)
      (x / 1099511627776 % 256) (x / 4294967296 % 256)
      (x / 16777216 % 256) (x / 65536 % 256) (x / 256 % 256) (x % 256) = x := by
  unfold ru64
  simp only [Nat.mod_mod_of_dvd _ dvd_rfl]
  have e0 : x = x % 18446744073709551616 := (Nat.mod_eq_of_lt hx).symm
  have m7 := @Nat.mod_mul 72057594037927936 256 x
  have m6 := @Nat.mod_mul 281474976710656 256 x
  have m5 := @Nat.mod_mul 1099511627776 256 x
  have m4 := @Nat.mod_mul 4294967296 256 x
  have m3 := @Nat.mod_mul 16777216 256 x
  have m2 := @Nat.mod_mul 65536 256 x
  have m1 := @Nat.mod_mul 256 256 x
  norm_num at m7 m6 m5 m4 m3 m2 m1
  omega

lemma rdI8_wrI8 (x : Int) (h1 : -128 ≤ x) (h2 : x < 128) : rdI8 (wrI8 x) = x := by
  unfold rdI8 wrI8
  omega

lemma serialize_header_length (h : NtpPacketHeader) :
    (serialize_header h).length = 48 := by
  simp [serialize_header, wu32, wu64]

/-- Parsing the serialization of a bounded header recovers it, with any
trailing bytes present. -/
lemma parse_serialize_header (h : NtpPacketHeader) (rest : List Nat)
    (hb : headerBounds h) :
    parse_packet_header (serialize_header h ++ rest) = .ok h := by
  obtain ⟨li, v, m, s, po, pr, rd, rdsp, rid, rts, ots, rcts, tts⟩ := h
  obtain ⟨hv, hs, hp, hpr, hrd, hrdsp, hrid, ht1, ht2, ht3, ht4⟩ := hb
  have hlen : (serialize_header ⟨li, v, m, s, po, pr, rd, rdsp, rid, rts, ots, rcts, tts⟩
      ++ rest).length = 48 + rest.length := by
    simp [serialize_header_length]
  rw [parse_packet_header, if_neg (by omega)]
  simp only [serialize_header, wu32, wu64, List.cons_append, List.nil_append,
    List.singleton_append] at *
  rw [parseHeaderBytes]
  obtain ⟨f1, f2, f3⟩ := first_byte_roundtrip li v m hv
  simp only [Except.ok.injEq, NtpPacketHeader.mk.injEq]
  refine ⟨f1, f2, f3, by omega, rdI8_wrI8 po hp.1 hp.2, rdI8_wrI8 pr hpr.1 hpr.2,
    ru32_wu32 rd hrd, ru32_wu32 rdsp hrdsp, ru32_wu32 rid hrid,
    ru64_wu64 rts ht1, ru64_wu64 ots ht2, ru64_wu64 rcts ht3, ru64_wu64 tts ht4⟩

/-! ### Claim C5 -/

/-- Claim C5: `parse_packet_header` returns an error exactly when the
input is shorter than 48 bytes; on inputs of at least 48 bytes it
succeeds, and a mode field value outside {1..5} decodes to
`PacketMode.Invalid` instead of erroring. -/
theorem C5_parse_header_error_iff (b : List Nat) :
    ((∃ e, parse_packet_header b = .error e) ↔ b.length < 48) ∧
    (48 ≤ b.length → parse_packet_header b = .ok (parseHeaderBytes b)) ∧
    (∀ v, parse_mode v = .Invalid ↔ (v % 8 = 0 ∨ 6 ≤ v % 8)) := by
  refine ⟨⟨?_, ?_⟩, ?_, ?_⟩
  · rintro ⟨e, he⟩
    by_contra hl
    rw [parse_packet_header, if_neg hl] at he
    exact absurd he (by simp)
  · intro hl
    exact ⟨"Too short", by rw [parse_packet_header, if_pos hl]⟩
  · intro hl
    rw [parse_packet_header, if_neg (by omega)]
  · intro v
    have hand : v &&& 7 = v % 8 := Nat.and_pow_two_sub_one_eq_mod v 3
    have h8 : v % 8 < 8 := Nat.mod_lt _ (by norm_num)
    obtain ⟨r, hrlt, hreq⟩ : ∃ r, r < 8 ∧ v % 8 = r := ⟨v % 8, h8, rfl⟩
    unfold parse_mode
    rw [hand, hreq]
    interval_cases r <;> decide

/-- Witness for C5 at concrete inputs: a 2-byte buffer errors, a 48-byte
buffer parses, and mode value 6 decodes to `Invalid`. -/
theorem C5_parse_header_error_iff_witness :
    (∃ e, parse_packet_header [0, 0] = .error e) ∧
    parse_packet_header (List.replicate 48 0) =
      .ok (parseHeaderBytes (List.replicate 48 0)) ∧
    parse_mode 6 = .Invalid :=
  ⟨(C5_parse_header_error_iff [0, 0]).1.mpr (by decide),
   (C5_parse_header_error_iff (List.replicate 48 0)).2.1 (by decide),
   ((C5_parse_header_error_iff []).2.2 6).mpr (by decide)⟩

/-! ### Claim C6 -/

/-- Claim C6: serializing then parsing a header with any leap state,
version in 0..7, one of the five real modes, and in-range remaining
fields recovers the header. -/
theorem C6_header_roundtrip (h : NtpPacketHeader) (hb : headerBounds h)
    (hm : h.mode ≠ .Invalid) :
    parse_packet_header (serialize_header h) = .ok h := by
  have := parse_serialize_header h [] hb
  simpa using this

/-- Witness for C6 at a concrete bounded header. -/
theorem C6_header_roundtrip_witness :
    headerBounds hdr0 ∧ hdr0.mode ≠ .Invalid ∧
    parse_packet_header (serialize_header hdr0) = .ok hdr0 :=
  ⟨by decide, by decide, C6_header_roundtrip hdr0 (by decide) (by decide)⟩

/-! ### Claim C4 -/

lemma parse_ext_error_iff_aux :
    ∀ (n : Nat) (buff : List Nat), buff.length ≤ n →
      ((∃ e, parse_extensions buff = .error e) ↔
        ∃ p ∈ extHeadersScan buff, p.2 % 4 ≠ 0 ∨ p.2 < 4) := by
  intro n
  induction n with
  | zero =>
    intro buff hlen
    rw [List.length_eq_zero.mp (Nat.le_zero.mp hlen)]
    simp [parse_extensions, extHeadersScan]
  | succ n ih =>
    intro buff hlen
    rcases buff with _ | ⟨a, _ | ⟨b, _ | ⟨c, _ | ⟨d, rest⟩⟩⟩⟩
    · simp [parse_extensions, extHeadersScan]
    · simp [parse_extensions, extHeadersScan]
    · simp [parse_extensions, extHeadersScan]
    · simp [parse_extensions, extHeadersScan]
    · rw [parse_extensions, extHeadersScan]
      by_cases h4 : ru16 c d % 4 = 0
      · by_cases hlt : ru16 c d < 4
        · rw [if_neg (by omega), if_pos hlt, if_pos (Or.inr hlt)]
          refine ⟨fun _ => ⟨(ru16 a b, ru16 c d), List.mem_singleton.mpr rfl, Or.inr hlt⟩,
            fun _ => ⟨"extension too short", rfl⟩⟩
        · rw [if_neg (by omega), if_neg hlt, if_neg (by omega)]
          have hrest : (rest.drop (ru16 c d - 4)).length ≤ n := by
            simp only [List.length_cons] at hlen
            simp only [List.length_drop]
            omega
          have ihr := ih _ hrest
          constructor
          · rintro ⟨e, he⟩
            rcases hrec : parse_extensions (rest.drop (ru16 c d - 4)) with er | ok
            · obtain ⟨p, hp, hb⟩ := ihr.mp ⟨_, hrec⟩
              exact ⟨p, List.mem_cons_of_mem _ hp, hb⟩
            · rw [hrec] at he
              exact absurd he (by simp)
          · rintro ⟨p, hp, hb⟩
            rcases List.mem_cons.mp hp with rfl | hp'
            · exact absurd hb (by simp; omega)
            · obtain ⟨e, he⟩ := ihr.mpr ⟨p, hp', hb⟩
              rw [he]
              exact ⟨e, rfl⟩
      · rw [if_pos h4, if_pos (Or.inl h4)]
        refine ⟨fun _ => ⟨(ru16 a b, ru16 c d), List.mem_singleton.mpr rfl, Or.inl h4⟩,
          fun _ => ⟨"extension not on word boundary", rfl⟩⟩

/-- Claim C4: `parse_extensions` fails exactly when one of the extension
headers visited by the scan declares a length that is not a multiple of
4 or is below 4; fewer than 4 remaining bytes stop the scan, and a
trailing fragment shorter than 4 bytes is ignored without error. -/
theorem C4_parse_extensions_error_iff (buff : List Nat) :
    ((∃ e, parse_extensions buff = .error e) ↔
      ∃ p ∈ extHeadersScan buff, p.2 % 4 ≠ 0 ∨ p.2 < 4) ∧
    (buff.length < 4 → parse_extensions buff = .ok []) := by
  constructor
  · exact parse_ext_error_iff_aux buff.length buff le_rfl
  · intro hlen
    rcases buff with _ | ⟨a, _ | ⟨b, _ | ⟨c, _ | ⟨d, rest⟩⟩⟩⟩
    · simp [parse_extensions]
    · simp [parse_extensions]
    · simp [parse_extensions]
    · simp [parse_extensions]
    · simp at hlen
      omega

/-- Witness for C4: a bad length field errors, a 3-byte trailing
fragment is ignored. -/
theorem C4_parse_extensions_error_iff_witness :
    (∃ e, parse_extensions [1, 4, 0, 6, 0, 0] = .error e) ∧
    parse_extensions [7, 7, 7] = .ok [] :=
  ⟨(C4_parse_extensions_error_iff [1, 4, 0, 6, 0, 0]).1.mpr
      ⟨(260, 6), by simp [extHeadersScan, ru16], by decide⟩,
   (C4_parse_extensions_error_iff [7, 7, 7]).2 (by decide)⟩

/-! ### Claim C8 -/

/-- Claim C8: `serialize_extensions` aborts exactly when some extension
has contents whose length is not a multiple of 4; otherwise it completes
and its output length is a multiple of 4. -/
theorem C8_serialize_extensions_abort_iff (exts : List NtpExtension) :
    (serialize_extensions exts = .panic ↔ ∃ e ∈ exts, e.contents.length % 4 ≠ 0) ∧
    (∀ bs, serialize_extensions exts = .value bs → bs.length % 4 = 0) := by
  induction exts with
  | nil => simp [serialize_extensions]
  | cons e rest ih =>
    rw [serialize_extensions]
    by_cases he : e.contents.length % 4 ≠ 0
    · rw [if_pos he]
      refine ⟨⟨fun _ => ⟨e, List.mem_cons_self _ _, he⟩, fun _ => rfl⟩,
        fun bs hbs => absurd hbs (by simp)⟩
    · rw [if_neg he]
      push_neg at he
      rcases hrec : serialize_extensions rest with _ | bs'
      · refine ⟨⟨fun _ => ?_, fun _ => rfl⟩, fun bs hbs => ?_⟩
        · obtain ⟨e', he', hb⟩ := ih.1.mp hrec
          exact ⟨e', List.mem_cons_of_mem _ he', hb⟩
        · exact absurd hbs (by simp)
      · refine ⟨⟨fun hpanic => ?_, fun hex => ?_⟩, fun bs hbs => ?_⟩
        · exact absurd hpanic (by simp)
        · obtain ⟨e', he', hb⟩ := hex
          rcases List.mem_cons.mp he' with rfl | hmem
          · omega
          · rw [ih.1.mpr ⟨e', hmem, hb⟩] at hrec
            exact absurd hrec (by simp)
        · simp only [PResult.value.injEq] at hbs
          have hlen := ih.2 bs' hrec
          subst hbs
          simp [wu16]
          omega

/-- Witness for C8: a misaligned extension aborts, an aligned list
serializes to a 4-aligned byte string. -/
theorem C8_serialize_extensions_abort_iff_witness :
    serialize_extensions [⟨.UniqueIdentifier, [1, 2, 3]⟩] = .panic ∧
    ∀ bs, serialize_extensions [⟨.UniqueIdentifier, [1, 2, 3, 4]⟩] = .value bs →
      bs.length % 4 = 0 :=
  ⟨(C8_serialize_extensions_abort_iff [⟨.UniqueIdentifier, [1, 2, 3]⟩]).1.mpr
      ⟨⟨.UniqueIdentifier, [1, 2, 3]⟩, by decide, by decide⟩,
   (C8_serialize_extensions_abort_iff [⟨.UniqueIdentifier, [1, 2, 3, 4]⟩]).2⟩

/-! ### Claim C2 -/

lemma nts_response_foldl_count (env : ServerEnv) (keys : NTSKeys) :
    ∀ (l : List NtpExtension) (acc : NtsPacket),
      (l.foldl (ntsResponseStep env keys) acc).auth_enc_exts.countP
          (fun e => decide (e.ext_type = .NTSCookie)) =
        acc.auth_enc_exts.countP (fun e => decide (e.ext_type = .NTSCookie)) +
        l.countP (fun e => decide (e.ext_type = .NTSCookiePlaceholder ∧
          env.cookieSize ≤ e.contents.length)) := by
  intro l
  induction l with
  | nil => simp
  | cons e rest ih =>
    intro acc
    rw [List.foldl_cons, List.countP_cons, ih]
    rcases e with ⟨ty, cont⟩
    rcases ty with _ | _ | _ | _ | y
    · simp [ntsResponseStep]
    · simp [ntsResponseStep]
    · by_cases hlen : env.cookieSize ≤ cont.length
      · simp [ntsResponseStep, hlen, List.countP_append]
        omega
      · simp [ntsResponseStep, hlen]
    · simp [ntsResponseStep]
    · simp [ntsResponseStep]

/-- Claim C2: a served NTS request with `k` cookie placeholders in its
authenticated extensions, `k_valid` of them at least `COOKIE_SIZE` long,
yields a response whose encrypted extension list holds exactly
`min(k_valid, k) + 1` `NTSCookie` extensions. -/
theorem C2_cookie_replacement_count (env : ServerEnv) (query : NtsPacket)
    (header : NtpPacketHeader) (keys : NTSKeys) :
    (nts_response env query header keys).auth_enc_exts.countP
        (fun e => decide (e.ext_type = .NTSCookie)) =
      min
        (query.auth_exts.countP (fun e => decide (e.ext_type = .NTSCookiePlaceholder ∧
          env.cookieSize ≤ e.contents.length)))
        (query.auth_exts.countP (fun e => decide (e.ext_type = .NTSCookiePlaceholder)))
      + 1 := by
  have hmin : min
      (query.auth_exts.countP (fun e => decide (e.ext_type = .NTSCookiePlaceholder ∧
        env.cookieSize ≤ e.contents.length)))
      (query.auth_exts.countP (fun e => decide (e.ext_type = .NTSCookiePlaceholder))) =
      query.auth_exts.countP (fun e => decide (e.ext_type = .NTSCookiePlaceholder ∧
        env.cookieSize ≤ e.contents.length)) := by
    refine Nat.min_eq_left (List.countP_mono_left ?_)
    intro e _ he
    simp only [decide_eq_true_eq] at he ⊢
    exact he.1
  rw [hmin, nts_response]
  simp only [List.countP_append, nts_response_foldl_count]
  simp

/-! ### Claim C7 -/

/-- Claim C7 (code bug): with an unfinished client state, an
`AEADAlgorithmNegotiation` record carrying zero scheme ids makes
`process_record` abort: the code indexes `schemes[0]` before its
`schemes.len() != 1` check, so the `InvalidRecord` error the claim (and
spec §4.6) require is never produced for an empty id list.  The
finished/Error/Warning clauses of the claim do hold. -/
theorem C7_aead_empty_record_aborts :
    process_record ⟨true, .AEADAlgorithmNegotiation, []⟩ cstate0 = .panic := rfl

/-! ### Claim C10 -/

lemma ru16_wu16 (n : Nat) (h : n < 65536) : ru16 (n / 256 % 256) (n % 256) = n := by
  unfold ru16
  omega

/-- Parsing a buffer that starts with the serialization of well-formed
extensions parses them back and continues into the remainder. -/
lemma parse_extensions_append (exts : List NtpExtension) :
    ∀ (bs rest : List Nat),
      serialize_extensions exts = .value bs →
      (∀ e ∈ exts, ExtWF e) →
      parse_extensions (bs ++ rest) =
        match parse_extensions rest with
        | .error e => .error e
        | .ok tailExts => .ok (exts ++ tailExts) := by
  induction exts with
  | nil =>
    intro bs rest hser _
    rw [serialize_extensions] at hser
    simp only [PResult.value.injEq] at hser
    subst hser
    simp only [List.nil_append]
    rcases parse_extensions rest with e | tailExts <;> simp
  | cons e tl ih =>
    intro bs rest hser hwf
    obtain ⟨hal, hsz, hwlt, hcan⟩ := hwf e (List.mem_cons_self _ _)
    rw [serialize_extensions, if_neg (by omega)] at hser
    rcases htl : serialize_extensions tl with _ | bs'
    · rw [htl] at hser
      exact absurd hser (by simp)
    · rw [htl] at hser
      simp only [PResult.value.injEq] at hser
      subst hser
      rw [Nat.mod_eq_of_lt hwlt, Nat.mod_eq_of_lt hsz]
      simp only [wu16, List.cons_append, List.nil_append, List.append_assoc]
      rw [parse_extensions, ru16_wu16 _ hwlt, ru16_wu16 _ hsz,
        if_neg (by omega), if_neg (by omega)]
      have hc4 : e.contents.length + 4 - 4 = e.contents.length := by omega
      rw [hc4]
      rw [List.take_left, List.drop_left]
      have hrep : e.contents.length - (e.contents ++ (bs' ++ rest)).length = 0 := by
        simp
      rw [hrep, List.replicate, List.append_nil]
      rw [ih bs' rest htl (fun x hx => hwf x (List.mem_cons_of_mem _ hx)), hcan]
      rcases parse_extensions rest with er | tailExts <;> simp

/-- Parsing a single extension header whose declared length overruns the
remaining bytes: the declared content length is kept and the missing
bytes read as zeros. -/
lemma parse_extensions_overrun (t l : Nat) (tail : List Nat)
    (ht : t < 65536) (hl4 : l % 4 = 0) (h4l : 4 ≤ l) (hlt : l < 65536)
    (hshort : tail.length < l - 4) :
    parse_extensions (wu16 t ++ wu16 l ++ tail) =
      .ok [⟨typeFromWire t, tail ++ List.replicate (l - 4 - tail.length) 0⟩] := by
  simp only [wu16, List.cons_append, List.nil_append]
  rw [parse_extensions, ru16_wu16 _ ht, ru16_wu16 _ hlt,
    if_neg (by omega), if_neg (by omega)]
  rw [List.drop_eq_nil_of_le (by omega), List.take_of_length_le (by omega)]
  have hnil : parse_extensions ([] : List Nat) = .ok [] := by
    simp [parse_extensions]
  rw [hnil]

/-- Claim C10: when the final extension of a buffer declares a 4-aligned
length of at least 4 that exceeds the bytes left after its header,
`parse_extensions` succeeds and returns that extension with contents of
the declared length, zero-filled past the end of the buffer. -/
theorem C10_overlong_final_extension (exts : List NtpExtension) (bs : List Nat)
    (t l : Nat) (tail : List Nat)
    (hser : serialize_extensions exts = .value bs) (hwf : ∀ e ∈ exts, ExtWF e)
    (ht : t < 65536) (hl4 : l % 4 = 0) (h4l : 4 ≤ l) (hlt : l < 65536)
    (hshort : tail.length < l - 4) :
    parse_extensions (bs ++ (wu16 t ++ wu16 l ++ tail)) =
      .ok (exts ++ [⟨typeFromWire t, tail ++ List.replicate (l - 4 - tail.length) 0⟩]) := by
  rw [parse_extensions_append exts bs _ hser hwf,
    parse_extensions_overrun t l tail ht hl4 h4l hlt hshort]

/-- Witness for C10: one well-formed extension followed by a final
header declaring 8 content bytes with only 2 present. -/
theorem C10_overlong_final_extension_witness :
    parse_extensions
        ((wu16 0x0204 ++ wu16 8 ++ [9, 9, 9, 9]) ++ (wu16 0x0104 ++ wu16 12 ++ [5, 6])) =
      .ok [⟨.NTSCookie, [9, 9, 9, 9]⟩, ⟨.UniqueIdentifier, [5, 6, 0, 0, 0, 0, 0, 0]⟩] := by
  have h := C10_overlong_final_extension [⟨.NTSCookie, [9, 9, 9, 9]⟩]
    (wu16 0x0204 ++ wu16 8 ++ [9, 9, 9, 9]) 0x0104 12 [5, 6]
    (by decide) (by decide) (by decide) (by decide) (by decide) (by decide) (by decide)
  simpa [typeFromWire] using h

/-! ### Claim C9 -/

/-- The scan loop of `parse_nts_packet` aborts exactly when it reaches
an `NTSAuthenticator` header whose declared (wrapped) content length
exceeds all bytes of the buffer outside that extension's 4-byte header;
`processed.length + remaining.length` is the buffer length minus 4 at
that point. -/
lemma ntsScan_panic_iff (aead : AeadAlg) (header : NtpPacketHeader) :
    ∀ (n : Nat) (remaining processed : List Nat) (acc : List NtpExtension),
      remaining.length ≤ n →
      (ntsScan aead header processed remaining acc = .panic ↔
        ∃ p ∈ ntsHeadersScan remaining, typeFromWire p.1 = .NTSAuthenticator ∧
          processed.length + remaining.length < p.2 + 4) := by
  intro n
  induction n with
  | zero =>
    intro remaining processed acc hlen
    rw [List.length_eq_zero.mp (Nat.le_zero.mp hlen)]
    rw [ntsScan.eq_def, ntsHeadersScan.eq_def]
    simp
  | succ n ih =>
    intro remaining processed acc hlen
    rcases remaining with _ | ⟨a, _ | ⟨b, _ | ⟨c, _ | ⟨d, rest⟩⟩⟩⟩
    · rw [ntsScan.eq_def, ntsHeadersScan.eq_def]; simp
    · rw [ntsScan.eq_def, ntsHeadersScan.eq_def]; simp
    · rw [ntsScan.eq_def, ntsHeadersScan.eq_def]; simp
    · rw [ntsScan.eq_def, ntsHeadersScan.eq_def]; simp
    · rw [ntsScan.eq_def, ntsHeadersScan.eq_def]
      simp only []
      rcases hty : typeFromWire (ru16 a b) with _ | _ | _ | _ | y
      case NTSAuthenticator =>
        simp only [hty]
        by_cases hpn : processed.length +
            min ((ru16 c d + 65532) % 65536) rest.length < (ru16 c d + 65532) % 65536
        · rw [if_pos hpn]
          simp only [List.mem_singleton, List.length_cons]
          exact ⟨fun _ => ⟨(ru16 a b, (ru16 c d + 65532) % 65536), rfl, hty, by omega⟩,
            fun _ => by trivial⟩
        · rw [if_neg hpn]
          constructor
          · intro hcontra
            rcases hdec : parse_decrypt_auth_ext aead
                (processed.take (processed.length +
                  min ((ru16 c d + 65532) % 65536) rest.length - (ru16 c d + 65532) % 65536))
                (rest.take ((ru16 c d + 65532) % 65536) ++
                  List.replicate ((ru16 c d + 65532) % 65536 - rest.length) 0) with e | pt
            · rw [hdec] at hcontra
              exact absurd hcontra (by simp)
            · rw [hdec] at hcontra
              rcases hpe : parse_extensions pt with e | encs <;> simp [hpe] at hcontra
          · rintro ⟨p, hp, hauth, hlt⟩
            rcases List.mem_singleton.mp hp with rfl
            simp only [List.length_cons] at hlt
            omega
      all_goals (
        simp only [hty]
        have hrest : (rest.drop ((ru16 c d + 65532) % 65536)).length ≤ n := by
          simp only [List.length_cons] at hlen
          simp only [List.length_drop]
          omega
        rw [ih _ _ _ hrest]
        constructor
        · rintro ⟨p, hp, hpauth, hplt⟩
          refine ⟨p, List.mem_cons_of_mem _ hp, hpauth, ?_⟩
          simp only [List.length_append, List.length_take, List.length_drop,
            List.length_cons, List.length_nil] at hplt ⊢
          omega
        · rintro ⟨p, hp, hpauth, hplt⟩
          rcases List.mem_cons.mp hp with rfl | hmem
          · rw [hty] at hpauth
            cases hpauth
          · refine ⟨p, hmem, hpauth, ?_⟩
            simp only [List.length_append, List.length_take, List.length_drop,
              List.length_cons, List.length_nil] at hplt ⊢
            omega)

/-- Claim C9, corrected: `parse_nts_packet` is total except that it
aborts (underflow of `reader.position() - 4 - ext_len` followed by an
out-of-bounds slice) exactly when the scan reaches an
`NTSAuthenticator` header whose declared content length
`(len - 4) mod 2^16` exceeds the bytes of the buffer outside that
4-byte header. -/
theorem C9_parse_nts_abort_iff (aead : AeadAlg) (buff : List Nat) :
    parse_nts_packet aead buff = .panic ↔
      ∃ p ∈ ntsHeadersScan (buff.drop 48), typeFromWire p.1 = .NTSAuthenticator ∧
        buff.length < p.2 + 4 := by
  rw [parse_nts_packet]
  rcases hh : parse_packet_header buff with e | hd
  · have hlen : buff.length < 48 := by
      by_contra hge
      rw [parse_packet_header, if_neg hge] at hh
      cases hh
    have hdrop : buff.drop 48 = [] := List.drop_eq_nil_of_le (by omega)
    have hscan : ntsHeadersScan ([] : List Nat) = [] := by
      rw [ntsHeadersScan.eq_def]
    simp [hdrop, hscan]
  · have hlen : ¬buff.length < 48 := by
      intro hc
      rw [parse_packet_header, if_pos hc] at hh
      cases hh
    rw [ntsScan_panic_iff aead hd (buff.drop 48).length (buff.drop 48) (buff.take 48) []
      le_rfl]
    have hsum : (buff.take 48).length + (buff.drop 48).length = buff.length := by
      simp only [List.length_take, List.length_drop]
      omega
    rw [hsum]

/-- Counterexample to claim C9 as stated: a 52-byte buffer whose single
extension is an `NTSAuthenticator` declaring length 0x0100 makes
`parse_nts_packet` abort (in both Rust overflow semantics: the `u64`
subtraction underflows in debug builds; in release builds it wraps and
the slice `&buff[0..oldpos]` is out of bounds). -/
theorem C9_parse_nts_abort_counterexample :
    parse_nts_packet idAead (List.replicate 48 0 ++ [4, 4, 1, 0]) = .panic := by
  rw [parse_nts_packet]
  rcases hh : parse_packet_header (List.replicate 48 0 ++ [4, 4, 1, 0]) with e | hd
  · exfalso
    rw [parse_packet_header, if_neg (by simp)] at hh
    cases hh
  · have hdrop : (List.replicate 48 (0 : Nat) ++ [4, 4, 1, 0]).drop 48 = [4, 4, 1, 0] :=
      List.drop_left' (by simp)
    have htake : (List.replicate 48 (0 : Nat) ++ [4, 4, 1, 0]).take 48 =
        List.replicate 48 0 := List.take_left' (by simp)
    rw [hdrop, htake]
    rw [ntsScan_panic_iff idAead hd 4 [4, 4, 1, 0] (List.replicate 48 0) [] (by simp)]
    refine ⟨(ru16 4 4, (ru16 1 0 + 65532) % 65536), ?_, by decide, by decide⟩
    rw [ntsHeadersScan]
    have : typeFromWire (ru16 4 4) = .NTSAuthenticator := by decide
    simp [this]

/-! ### Claim C3 -/

lemma extract_extension_of_has (p : NtpPacket) (k : NtpExtensionType)
    (h : has_extension p k = true) :
    ∃ e, extract_extension p k = some e ∧ e.ext_type = k := by
  unfold has_extension at h
  obtain ⟨e, hmem, hpe⟩ := List.any_eq_true.mp h
  have hsome : (p.exts.find? fun e => decide (e.ext_type = k)).isSome :=
    List.find?_isSome.mpr ⟨e, hmem, hpe⟩
  obtain ⟨e', he'⟩ := Option.isSome_iff_exists.mp hsome
  refine ⟨e', he', ?_⟩
  have := List.find?_some he'
  simpa using this

/-- Every extension produced by `parse_extensions` has 4-aligned
contents (its length is the declared `length - 4`). -/
lemma parse_extensions_ok_aligned :
    ∀ (n : Nat) (buff : List Nat) (exts : List NtpExtension), buff.length ≤ n →
      parse_extensions buff = .ok exts → ∀ e ∈ exts, e.contents.length % 4 = 0 := by
  intro n
  induction n with
  | zero =>
    intro buff exts hlen hok
    rw [List.length_eq_zero.mp (Nat.le_zero.mp hlen)] at hok
    have : parse_extensions ([] : List Nat) = .ok [] := by simp [parse_extensions]
    rw [this] at hok
    simp only [Except.ok.injEq] at hok
    subst hok
    intro e he
    cases he
  | succ n ih =>
    intro buff exts hlen hok
    rcases buff with _ | ⟨a, _ | ⟨b, _ | ⟨c, _ | ⟨d, rest⟩⟩⟩⟩
    · simp [parse_extensions] at hok
      subst hok
      intro e he
      cases he
    · simp [parse_extensions] at hok
      subst hok
      intro e he
      cases he
    · simp [parse_extensions] at hok
      subst hok
      intro e he
      cases he
    · simp [parse_extensions] at hok
      subst hok
      intro e he
      cases he
    rw [parse_extensions] at hok
    by_cases h4 : ru16 c d % 4 = 0
    · by_cases hlt : ru16 c d < 4
      · rw [if_neg (by omega), if_pos hlt] at hok
        cases hok
      · rw [if_neg (by omega), if_neg hlt] at hok
        rcases hrec : parse_extensions (rest.drop (ru16 c d - 4)) with er | tl
        · rw [hrec] at hok
          cases hok
        · rw [hrec] at hok
          simp only [Except.ok.injEq] at hok
          subst hok
          intro e he
          rcases List.mem_cons.mp he with rfl | hmem
          · simp only [List.length_append, List.length_take, List.length_replicate]
            omega
          · refine ih (rest.drop (ru16 c d - 4)) tl ?_ hrec e hmem
            simp only [List.length_cons] at hlen
            simp only [List.length_drop]
            omega
    · rw [if_pos h4] at hok
      cases hok

/-- `serialize_extensions` succeeds on 4-aligned extension lists. -/
lemma serialize_extensions_total (exts : List NtpExtension)
    (h : ∀ e ∈ exts, e.contents.length % 4 = 0) :
    ∃ bs, serialize_extensions exts = .value bs := by
  induction exts with
  | nil => exact ⟨[], rfl⟩
  | cons e rest ih =>
    obtain ⟨bs', hbs'⟩ := ih fun x hx => h x (List.mem_cons_of_mem _ hx)
    refine ⟨wu16 (wireType e.ext_type % 65536) ++
      wu16 ((e.contents.length + 4) % 65536) ++ e.contents ++ bs', ?_⟩
    rw [serialize_extensions, if_neg (by simpa using h e (List.mem_cons_self _ _)), hbs']

/-- The kiss-of-death packet serializes whenever the query parsed. -/
lemma serialize_kod_total (query : List Nat) (p : NtpPacket)
    (hp : parse_ntp_packet query = .ok p) :
    ∃ bs, serialize_ntp_packet (kiss_of_death p) = .value bs := by
  have haligned : ∀ e ∈ p.exts, e.contents.length % 4 = 0 := by
    rw [parse_ntp_packet] at hp
    rcases hh : parse_packet_header query with er | hd <;> rw [hh] at hp
    · cases hp
    · rcases hx : parse_extensions (query.drop 48) with er | exts <;> rw [hx] at hp
      · cases hp
      · simp only [Except.ok.injEq] at hp
        subst hp
        exact parse_extensions_ok_aligned (query.drop 48).length _ _ le_rfl hx
  have hkod : ∀ e ∈ (kiss_of_death p).exts, e.contents.length % 4 = 0 := by
    intro e he
    by_cases hhas : has_extension p .UniqueIdentifier = true
    · obtain ⟨uid, huid, hty⟩ := extract_extension_of_has p .UniqueIdentifier hhas
      simp [kiss_of_death, hhas, huid] at he
      subst he
      exact haligned _ (List.mem_of_find?_eq_some huid)
    · have hf : has_extension p .UniqueIdentifier = false := by simpa using hhas
      simp [kiss_of_death, hf] at he
  obtain ⟨bs, hbs⟩ := serialize_extensions_total _ hkod
  exact ⟨_, by rw [serialize_ntp_packet, hbs]⟩

/-- Claim C3: any non-`Client` request, and any NTS request failing the
cookie chain (key-id extraction, master-key lookup, cookie opening) or
packet authentication, is answered with the serialized kiss-of-death
packet, whose shape is: leap `Unknown`, stratum 0, mode `Server`,
reference id 0x4E54534E, origin timestamp copied from the request's
transmit timestamp, all other timestamps zero, the request's
`UniqueIdentifier` echoed when present, and no authenticator
extension. -/
theorem C3_kiss_of_death_shape (env : ServerEnv) (rt : Nat) (ss : ServerState)
    (query : List Nat) (p : NtpPacket) (cookieExt : NtpExtension) (kodBytes : List Nat)
    (hp : parse_ntp_packet query = .ok p)
    (hser : serialize_ntp_packet (kiss_of_death p) = .value kodBytes)
    (hfail : p.header.mode ≠ .Client ∨
      (is_nts_packet p = true ∧ extract_extension p .NTSCookie = some cookieExt ∧
        (env.get_keyid cookieExt.contents = none ∨
         (∃ kid, env.get_keyid cookieExt.contents = some kid ∧
           env.keyLookup kid = none) ∨
         (∃ kid key, env.get_keyid cookieExt.contents = some kid ∧
           env.keyLookup kid = some key ∧ env.eat_cookie cookieExt.contents key = none) ∨
         (∃ kid key ks msg, env.get_keyid cookieExt.contents = some kid ∧
           env.keyLookup kid = some key ∧
           env.eat_cookie cookieExt.contents key = some ks ∧
           parse_nts_packet (env.mkAead ks.c2s) query = .value (.error msg))))) :
    response env rt ss query = .value (.ok kodBytes) ∧
    (kiss_of_death p).header.leap_indicator = .Unknown ∧
    (kiss_of_death p).header.stratum = 0 ∧
    (kiss_of_death p).header.mode = .Server ∧
    (kiss_of_death p).header.reference_id = 0x4e54534e ∧
    (kiss_of_death p).header.origin_timestamp = p.header.transmit_timestamp ∧
    (kiss_of_death p).header.reference_timestamp = 0 ∧
    (kiss_of_death p).header.receive_timestamp = 0 ∧
    (kiss_of_death p).header.transmit_timestamp = 0 ∧
    (has_extension p .UniqueIdentifier = true →
      ∃ uid, extract_extension p .UniqueIdentifier = some uid ∧
        uid.ext_type = .UniqueIdentifier ∧ (kiss_of_death p).exts = [uid]) ∧
    (has_extension p .UniqueIdentifier = false → (kiss_of_death p).exts = []) ∧
    (∀ e ∈ (kiss_of_death p).exts, e.ext_type ≠ .NTSAuthenticator) := by
  have hkodsend : send_kiss_of_death p = .value (.ok kodBytes) := by
    rw [send_kiss_of_death, hser]
  have hresp : response env rt ss query = .value (.ok kodBytes) := by
    rw [response, hp]
    simp only
    by_cases hmode : p.header.mode = .Client
    · rcases hfail with hne | ⟨hnts, hcx, hchain⟩
      · exact absurd hmode hne
      · rw [if_neg (by simp [hmode]), if_pos hnts]
        simp only [hcx]
        rcases hchain with hkid | ⟨kid, hkid, hkey⟩ | ⟨kid, key, hkid, hkey, heat⟩ |
          ⟨kid, key, ks, msg, hkid, hkey, heat, hparse⟩
        · simp only [hkid]
          exact hkodsend
        · simp only [hkid, hkey]
          exact hkodsend
        · simp only [hkid, hkey, heat]
          exact hkodsend
        · simp only [hkid, hkey, heat]
          have hpnAll : ∀ rh : NtpPacketHeader,
              process_nts env rh ks query = .value kodBytes := by
            intro rh
            rw [process_nts]
            simp only [hparse, hp, hser]
          simp only [hpnAll]
    · rw [if_pos hmode]
      exact hkodsend
  refine ⟨hresp, rfl, rfl, rfl, rfl, rfl, rfl, rfl, rfl, ?_, ?_, ?_⟩
  · intro hhas
    obtain ⟨uid, huid, hty⟩ := extract_extension_of_has p .UniqueIdentifier hhas
    exact ⟨uid, huid, hty, by simp [kiss_of_death, hhas, huid]⟩
  · intro hhas
    simp [kiss_of_death, hhas]
  · intro e he
    by_cases hhas : has_extension p .UniqueIdentifier = true
    · obtain ⟨uid, huid, hty⟩ := extract_extension_of_has p .UniqueIdentifier hhas
      simp [kiss_of_death, hhas, huid] at he
      subst he
      rw [hty]
      intro hcon
      cases hcon
    · have hf : has_extension p .UniqueIdentifier = false := by simpa using hhas
      simp [kiss_of_death, hf] at he

/-- Witness for C3: a 48-byte request with mode `SymmetricActive` is
answered with the serialized kiss-of-death packet. -/
theorem C3_kiss_of_death_shape_witness :
    response env0 0 ss0
        (serialize_header { hdr0 with mode := .SymmetricActive }) =
      .value (.ok (serialize_header
        (kiss_of_death (NtpPacket.mk (parseHeaderBytes
          (serialize_header { hdr0 with mode := .SymmetricActive })) [])).header)) ∧
    (kiss_of_death (NtpPacket.mk (parseHeaderBytes
      (serialize_header { hdr0 with mode := .SymmetricActive })) [])).header.stratum = 0 :=
  have h := C3_kiss_of_death_shape env0 0 ss0
    (serialize_header { hdr0 with mode := .SymmetricActive })
    (NtpPacket.mk (parseHeaderBytes
      (serialize_header { hdr0 with mode := .SymmetricActive })) [])
    ⟨.UniqueIdentifier, []⟩
    (serialize_header (kiss_of_death (NtpPacket.mk (parseHeaderBytes
      (serialize_header { hdr0 with mode := .SymmetricActive })) [])).header)
    (by
      rw [parse_ntp_packet, parse_packet_header,
        if_neg (by simp [serialize_header_length])]
      rw [List.drop_eq_nil_of_le (by simp [serialize_header_length])]
      have hnil : parse_extensions ([] : List Nat) = .ok [] := by
        simp [parse_extensions]
      rw [hnil])
    (by decide) (Or.inl (by decide))
  ⟨h.1, h.2.2.1⟩

/-! ### Claim C1 -/

/-- Parsing the serialization of a well-formed extension list recovers
it exactly. -/
lemma parse_extensions_of_serialize (exts : List NtpExtension) (bs : List Nat)
    (hser : serialize_extensions exts = .value bs) (hwf : ∀ e ∈ exts, ExtWF e) :
    parse_extensions bs = .ok exts := by
  have h := parse_extensions_append exts bs [] hser hwf
  have hnil : parse_extensions ([] : List Nat) = .ok [] := by
    simp [parse_extensions]
  rw [hnil] at h
  simpa using h

/-- The `parse_nts_packet` scan walks over the serialization of
well-formed non-authenticator extensions, collecting them into the
accumulator. -/
lemma ntsScan_consume (aead : AeadAlg) (header : NtpPacketHeader) :
    ∀ (exts : List NtpExtension) (bs processed rest2 : List Nat)
      (acc : List NtpExtension),
      serialize_extensions exts = .value bs →
      (∀ e ∈ exts, ExtWF e ∧ e.ext_type ≠ .NTSAuthenticator) →
      ntsScan aead header processed (bs ++ rest2) acc =
        ntsScan aead header (processed ++ bs) rest2 (acc ++ exts) := by
  intro exts
  induction exts with
  | nil =>
    intro bs processed rest2 acc hser _
    rw [serialize_extensions] at hser
    simp only [PResult.value.injEq] at hser
    subst hser
    simp
  | cons e tl ih =>
    intro bs processed rest2 acc hser hwf
    obtain ⟨⟨hal, hsz, hwlt, hcan⟩, hna⟩ := hwf e (List.mem_cons_self _ _)
    have htlwf : ∀ x ∈ tl, ExtWF x ∧ x.ext_type ≠ .NTSAuthenticator :=
      fun x hx => hwf x (List.mem_cons_of_mem _ hx)
    rw [serialize_extensions, if_neg (by omega)] at hser
    rcases htl : serialize_extensions tl with _ | bs'
    · rw [htl] at hser
      exact absurd hser (by simp)
    · rw [htl] at hser
      simp only [PResult.value.injEq] at hser
      subst hser
      rcases e with ⟨ty, cont⟩
      simp only at hal hsz hwlt hcan hna
      rw [Nat.mod_eq_of_lt hwlt, Nat.mod_eq_of_lt hsz]
      simp only [wu16, List.cons_append, List.nil_append, List.append_assoc]
      conv_lhs => rw [ntsScan.eq_def]
      simp only [ru16_wu16 _ hwlt, ru16_wu16 _ hsz, hcan]
      have hext : (cont.length + 4 + 65532) % 65536 = cont.length := by
        omega
      rw [hext]
      have htake : (cont ++ (bs' ++ rest2)).take cont.length = cont :=
        List.take_left _ _
      have hdrop : (cont ++ (bs' ++ rest2)).drop cont.length = bs' ++ rest2 :=
        List.drop_left _ _
      have hrep : List.replicate (cont.length - (cont ++ (bs' ++ rest2)).length) 0 =
          ([] : List Nat) := by
        have h0 : cont.length - (cont ++ (bs' ++ rest2)).length = 0 := by
          simp
        rw [h0]
        rfl
      rw [htake, hdrop, hrep, List.append_nil]
      cases ty with
      | NTSAuthenticator => exact absurd rfl hna
      | UniqueIdentifier =>
        refine Eq.trans (ih bs' _ rest2 (acc ++ [⟨.UniqueIdentifier, cont⟩]) htl htlwf) ?_
        simp [List.append_assoc]
      | NTSCookie =>
        refine Eq.trans (ih bs' _ rest2 (acc ++ [⟨.NTSCookie, cont⟩]) htl htlwf) ?_
        simp [List.append_assoc]
      | NTSCookiePlaceholder =>
        refine Eq.trans (ih bs' _ rest2 (acc ++ [⟨.NTSCookiePlaceholder, cont⟩]) htl htlwf) ?_
        simp [List.append_assoc]
      | Unknown y =>
        refine Eq.trans (ih bs' _ rest2 (acc ++ [⟨.Unknown y, cont⟩]) htl htlwf) ?_
        simp [List.append_assoc]

/-- Evaluating the scan at a serialized authenticator extension: the AD
is exactly the processed prefix, the nonce and ciphertext slices are
recovered, and the decrypted plaintext is parsed as the encrypted
extension list. -/
lemma ntsScan_auth_step (aead : AeadAlg) (header : NtpPacketHeader)
    (processed : List Nat) (acc : List NtpExtension)
    (nonce ct pb : List Nat) (pl : Nat) (encs : List NtpExtension)
    (hnonce : nonce.length = 32)
    (hpl : pl = (4 - ct.length % 4) % 4)
    (hct : ct.length + 43 < 65536)
    (hopen : aead.opn nonce processed ct = .ok pb)
    (hpe : parse_extensions pb = .ok encs) :
    ntsScan aead header processed
      (wu16 0x0404 ++
        wu16 ((wu16 32 ++ wu16 ct.length ++ nonce ++ ct ++ List.replicate pl 0).length + 4) ++
        (wu16 32 ++ wu16 ct.length ++ nonce ++ ct ++ List.replicate pl 0)) acc =
      .value (.ok ⟨header, acc, encs⟩) := by
  have haclen : (wu16 32 ++ wu16 ct.length ++ nonce ++ ct ++
      List.replicate pl 0).length = 36 + ct.length + pl := by
    simp [wu16, hnonce]
    omega
  have hacsz : (wu16 32 ++ wu16 ct.length ++ nonce ++ ct ++
      List.replicate pl 0).length + 4 < 65536 := by
    rw [haclen]
    omega
  conv_lhs =>
    rw [show wu16 0x0404 = [4, 4] from rfl]
    rw [wu16]
  simp only [List.cons_append, List.nil_append]
  conv_lhs => rw [ntsScan.eq_def]
  have hty : typeFromWire (ru16 4 4) = .NTSAuthenticator := by decide
  have hru : ru16 (((wu16 32 ++ wu16 ct.length ++ nonce ++ ct ++
        List.replicate pl 0).length + 4) / 256 % 256)
      (((wu16 32 ++ wu16 ct.length ++ nonce ++ ct ++
        List.replicate pl 0).length + 4) % 256) =
      (wu16 32 ++ wu16 ct.length ++ nonce ++ ct ++ List.replicate pl 0).length + 4 :=
    ru16_wu16 _ hacsz
  simp only [hty, hru]
  have hext : ((wu16 32 ++ wu16 ct.length ++ nonce ++ ct ++
      List.replicate pl 0).length + 4 + 65532) % 65536 =
      (wu16 32 ++ wu16 ct.length ++ nonce ++ ct ++ List.replicate pl 0).length := by
    omega
  rw [hext]
  rw [min_self, if_neg (by omega)]
  rw [List.take_length, Nat.sub_self, Nat.add_sub_cancel, List.take_length]
  rw [show List.replicate 0 (0 : Nat) = [] from rfl, List.append_nil]
  have hdec : parse_decrypt_auth_ext aead processed
      (wu16 32 ++ wu16 ct.length ++ nonce ++ ct ++ List.replicate pl 0) = .ok pb := by
    conv_lhs =>
      rw [show wu16 32 = [0, 32] from rfl]
      rw [wu16]
    simp only [List.cons_append, List.nil_append]
    rw [parse_decrypt_auth_ext]
    have hru2 : ru16 (ct.length / 256 % 256) (ct.length % 256) = ct.length :=
      ru16_wu16 _ (by omega)
    have hru3 : ru16 0 32 = 32 := by decide
    simp only [hru2, hru3]
    rw [List.append_assoc nonce ct (List.replicate pl 0)]
    have hcrest : (nonce ++ (ct ++ List.replicate pl 0)).length =
        32 + ct.length + pl := by
      simp [hnonce]
      omega
    rw [if_neg (by
      simp only [hcrest]
      omega)]
    have hn32 : (32 : Nat) + (4 - 32 % 4) % 4 = 32 := by norm_num
    rw [hn32]
    have htknonce : (nonce ++ (ct ++ List.replicate pl 0)).take 32 = nonce := by
      rw [← hnonce]
      exact List.take_left _ _
    have hdrnonce : (nonce ++ (ct ++ List.replicate pl 0)).drop 32 =
        ct ++ List.replicate pl 0 := by
      rw [← hnonce]
      exact List.drop_left _ _
    rw [htknonce, hdrnonce, List.take_left, hopen]
  simp only [hdec, hpe]

/-- Claim C1: serializing a valid NTS packet (4-aligned, wire-canonical,
non-authenticator extensions; in-range header fields) and parsing the
result with the same AEAD key returns the packet.  The AEAD is
abstract:  `hopen` is its seal/open correctness at the sealed values,
`hct` bounds the ciphertext so the `u16` length fields do not
truncate. -/
theorem C1_nts_roundtrip (aead : AeadAlg) (nonce : List Nat) (p : NtsPacket)
    (ab pb : List Nat)
    (hab : serialize_extensions p.auth_exts = .value ab)
    (hpb : serialize_extensions p.auth_enc_exts = .value pb)
    (hnonce : nonce.length = 32)
    (hvalid : validNtsPacket p)
    (hct : (aead.sealF nonce (serialize_header p.header ++ ab) pb).length + 43 < 65536)
    (hopen : aead.opn nonce (serialize_header p.header ++ ab)
        (aead.sealF nonce (serialize_header p.header ++ ab) pb) = .ok pb) :
    ∃ out, serialize_nts_packet aead nonce p = .value out ∧
      parse_nts_packet aead out = .value (.ok p) := by
  obtain ⟨hb, hexts⟩ := hvalid
  set ct := aead.sealF nonce (serialize_header p.header ++ ab) pb with hctdef
  have hml : ct.length % 65536 = ct.length := by omega
  set pl := (4 - ct.length % 4) % 4 with hpldef
  set acont := wu16 32 ++ wu16 ct.length ++ nonce ++ ct ++ List.replicate pl 0
    with hacontdef
  have haclen : acont.length = 36 + ct.length + pl := by
    rw [hacontdef]
    simp [wu16, hnonce]
    omega
  have hacal : acont.length % 4 = 0 := by
    rw [haclen]
    omega
  have hserauth : serialize_extensions [⟨.NTSAuthenticator, acont⟩] =
      .value (wu16 0x0404 ++ wu16 (acont.length + 4) ++ acont) := by
    have hm2 : (acont.length + 4) % 65536 = acont.length + 4 := by
      rw [haclen]
      omega
    rw [serialize_extensions, if_neg (by simpa using hacal), serialize_extensions]
    simp only [wireType, List.append_nil, hm2]
  have hserNts : serialize_nts_packet aead nonce p =
      .value ((serialize_header p.header ++ ab) ++
        (wu16 0x0404 ++ wu16 (acont.length + 4) ++ acont)) := by
    rw [serialize_nts_packet]
    simp only [hab, hpb]
    rw [show NONCE_LEN = 32 from rfl, ← hctdef, hml, ← hpldef, ← hacontdef, hserauth]
  refine ⟨_, hserNts, ?_⟩
  rw [parse_nts_packet]
  have hout48 : parse_packet_header ((serialize_header p.header ++ ab) ++
      (wu16 0x0404 ++ wu16 (acont.length + 4) ++ acont)) = .ok p.header := by
    rw [List.append_assoc]
    exact parse_serialize_header p.header _ hb
  have htk : ((serialize_header p.header ++ ab) ++
      (wu16 0x0404 ++ wu16 (acont.length + 4) ++ acont)).take 48 =
      serialize_header p.header := by
    rw [List.append_assoc]
    exact List.take_left' (serialize_header_length _)
  have hdr : ((serialize_header p.header ++ ab) ++
      (wu16 0x0404 ++ wu16 (acont.length + 4) ++ acont)).drop 48 =
      ab ++ (wu16 0x0404 ++ wu16 (acont.length + 4) ++ acont) := by
    rw [List.append_assoc]
    exact List.drop_left' (serialize_header_length _)
  rw [hout48]
  simp only
  rw [htk, hdr]
  rw [ntsScan_consume aead p.header p.auth_exts ab _ _ [] hab
    (fun e he => hexts e (List.mem_append_left _ he))]
  rw [List.nil_append]
  rw [ntsScan_auth_step aead p.header _ p.auth_exts nonce ct pb pl p.auth_enc_exts
    hnonce hpldef (by omega) hopen
    (parse_extensions_of_serialize p.auth_enc_exts pb hpb
      (fun e he => (hexts e (List.mem_append_right _ he)).1))]

/-- Witness for C1: a concrete valid packet, an all-zero 32-byte nonce
and the identity AEAD round-trip. -/
theorem C1_nts_roundtrip_witness :
    validNtsPacket pkt0 ∧ (List.replicate 32 0 : List Nat).length = 32 ∧
    ∃ out, serialize_nts_packet idAead (List.replicate 32 0) pkt0 = .value out ∧
      parse_nts_packet idAead out = .value (.ok pkt0) :=
  ⟨by decide, by decide,
   C1_nts_roundtrip idAead (List.replicate 32 0) pkt0
     [1, 4, 0, 8, 17, 17, 17, 17] [3, 4, 0, 8, 254, 254, 254, 254]
     (by decide) (by decide) (by decide) (by decide) (by decide) rfl⟩

end Cfnts
